import Mathlib

/-!
Verification of the Infinite Library archive browser.

A shallow embedding of the filtering/view-state component and the persisted
settings store of `src/main.ts`, with theorems checking the natural-language
specification against it.

Modelling conventions:
* TypeScript `number` timestamps (`Date.now()` milliseconds) become `Int`;
  fractional weights and credibilities become `Rat` (the source literals such
  as `0.7` or `0.92` are exact decimal fractions).
* The fixture documents compute their timestamps from `Date.now()`, so the
  fixture collections are parameterised by the current time `now : Int`.
* JS strings are Lean `String`s; `trim`, `toLowerCase`, `join(" ")` and
  substring search (`String.prototype.includes`) are modelled by executable
  Lean functions over the character lists (ASCII-faithful).
* `Array.prototype.sort` with comparator `(a, b) => b.timestamp - a.timestamp`
  is the stable sort by the boolean relation `b.timestamp ≤ a.timestamp`,
  i.e. `List.mergeSort` with that relation.
-/

/-- The `Agent` record from `src/main.ts`. -/
structure Agent where
  id : String
  name : String
  beliefVector : List Rat
  styleVector : List Rat
  memory : List String
  faction : String
  credibility : Rat
deriving DecidableEq, Repr

/-- The `DocumentRecord` record from `src/main.ts`. -/
structure DocumentRecord where
  id : String
  title : String
  text : String
  authorId : String
  timestamp : Int
  embedding : List Rat
  references : List String
  factionTag : String
  canonWeight : Rat
deriving DecidableEq, Repr

/-- The `LibraryViewState` record from `src/main.ts`: the in-memory filter/selection
state. `activeDocumentId : string | null` becomes `Option String`. -/
structure LibraryViewState where
  documents : List DocumentRecord
  agents : List Agent
  activeDocumentId : Option String
  searchTerm : String
  factionFilter : String
  showCanonOnly : Bool
deriving DecidableEq, Repr

/-- Host model of JS `pat.isPrefixOf`-style comparison: `charsLeads p h`
is true when the character list `p` is an initial segment of `h`. -/
def charsLeads : List Char → List Char → Bool
  | [], _ => true
  | _ :: _, [] => false
  | p :: ps, h :: hs => p == h && charsLeads ps hs

/-- Host model of JS `String.prototype.includes` on character lists:
`charsIncludes pat hay` is true when `pat` occurs contiguously in `hay`. -/
def charsIncludes (pat : List Char) : List Char → Bool
  | [] => charsLeads pat []
  | c :: rest => charsLeads pat (c :: rest) || charsIncludes pat rest

/-- JS `hay.includes(pat)` on strings. -/
def stringIncludes (hay pat : String) : Bool :=
  charsIncludes pat.data hay.data

/-- Host model of JS `String.prototype.toLowerCase` (ASCII-faithful):
lower-case every character. -/
def strToLower (s : String) : String :=
  ⟨s.data.map Char.toLower⟩

/-- Host model of JS `String.prototype.trim`: drop whitespace from both
ends. -/
def strTrim (s : String) : String :=
  ⟨((s.data.dropWhile Char.isWhitespace).reverse.dropWhile
      Char.isWhitespace).reverse⟩

/-- The author-name resolution inside the search predicate of
`filteredDocuments`: `this.state.agents.find((a) => a.id === doc.authorId)`,
with `agent?.name ?? ""`. -/
def resolvedAuthorName (agents : List Agent) (doc : DocumentRecord) : String :=
  match agents.find? (fun a => a.id == doc.authorId) with
  | some agent => agent.name
  | none => ""

/-- The lower-cased search haystack of `filteredDocuments`:
`[doc.title, doc.text, agent?.name ?? ""].join(" ").toLowerCase()`. -/
def searchHaystack (agents : List Agent) (doc : DocumentRecord) : String :=
  strToLower
    (String.intercalate " " [doc.title, doc.text, resolvedAuthorName agents doc])

/-- The per-document predicate of the `filter` callback in
`filteredDocuments` (`src/main.ts` lines 371–384), with the trimmed
lower-cased search term `term` already computed by the caller. -/
def docMatches (agents : List Agent) (factionFilter : String)
    (showCanonOnly : Bool) (term : String) (doc : DocumentRecord) : Bool :=
  if factionFilter != "all" && doc.factionTag != factionFilter then
    false
  else if showCanonOnly && decide (doc.canonWeight < 0.7) then
    false
  else if term.isEmpty then
    true
  else
    stringIncludes (searchHaystack agents doc) term

/-- The filtering/sorting engine: the `filteredDocuments` getter
(`src/main.ts` lines 368–386). Filters `state.documents` by the three
AND-ed conditions and stable-sorts the result by descending timestamp. -/
def filteredDocuments (st : LibraryViewState) : List DocumentRecord :=
  let term := strToLower (strTrim st.searchTerm)
  (st.documents.filter
      (docMatches st.agents st.factionFilter st.showCanonOnly term)).mergeSort
    (fun a b => decide (b.timestamp ≤ a.timestamp))

/-- Helper: `List.mergeSort` on a two-element list is a single comparison. -/
theorem mergeSort_pair {α : Type} (le : α → α → Bool) (a b : α) :
    [a, b].mergeSort le = if le a b then [a, b] else [b, a] := by
  rw [List.mergeSort]
  simp [List.merge]

/-- The state transition performed by `refreshArchiveList`
(`src/main.ts` lines 388–438) on `activeDocumentId`, DOM work elided:
on an empty visible set the function returns early (leaving the state
untouched); otherwise, when the active id is not among the visible
documents, it becomes `documents[0]?.id ?? null`. -/
def refreshArchiveList (st : LibraryViewState) : LibraryViewState :=
  let documents := filteredDocuments st
  if documents.length == 0 then
    st
  else if documents.any (fun doc => some doc.id == st.activeDocumentId) then
    st
  else
    { st with activeDocumentId :=
        match documents.head? with
        | some doc => some doc.id
        | none => none }

/-- The `primeAgents` fixture collection (`src/main.ts` lines 75–103). -/
def primeAgents : List Agent :=
  [ { id := "a_mnemosyne"
    , name := "Mnemosyne of the First Dawn"
    , beliefVector := [0.95, 0.8, 0.1]
    , styleVector := [0.2, 0.9, 0.6]
    , memory := ["d_origin_sky", "d_aurora_accord"]
    , faction := "Auroral Chorus"
    , credibility := 92 }
  , { id := "a_cartographer"
    , name := "Cartographer of Forgotten Straits"
    , beliefVector := [0.45, 0.6, 0.8]
    , styleVector := [0.7, 0.3, 0.2]
    , memory := ["d_tidal_vow", "d_silted_reckoning"]
    , faction := "Tidal Covenant"
    , credibility := 68 }
  , { id := "a_scribe_of_breath"
    , name := "Scribe of the Fifth Breath"
    , beliefVector := [0.3, 0.4, 0.95]
    , styleVector := [0.6, 0.4, 0.9]
    , memory := ["d_origin_sky", "d_ember_heresy"]
    , faction := "Ember Reliquary"
    , credibility := 74 } ]

/-- Fixture document `d_origin_sky`, parameterised by `now = Date.now()`. -/
def dOriginSky (now : Int) : DocumentRecord :=
  { id := "d_origin_sky"
  , title := "Hymn of the Origin Sky"
  , text := "When the first readers traced the aurora, they wrote upon the sky itself.\nEvery word became a filament, every doubt a comet-tail of gold.\nThe Infinite Library inhaled and the shelves rearranged in concentric halos."
  , authorId := "a_mnemosyne"
  , timestamp := now - 1000 * 60 * 60 * 24 * 92
  , embedding := [0.91, 0.78, 0.09]
  , references := []
  , factionTag := "Auroral Chorus"
  , canonWeight := 0.92 }

/-- Fixture document `d_aurora_accord`. -/
def dAuroraAccord (now : Int) : DocumentRecord :=
  { id := "d_aurora_accord"
  , title := "The Aurora Accord"
  , text := "In the seventh council, factions braided their doctrines.\nThe accord bound mythographers to share marginalia before war.\nPeace held for three cycles until the Ember Reliquary questioned the margins themselves."
  , authorId := "a_mnemosyne"
  , timestamp := now - 1000 * 60 * 60 * 24 * 61
  , embedding := [0.84, 0.76, 0.14]
  , references := ["d_origin_sky"]
  , factionTag := "Auroral Chorus"
  , canonWeight := 0.81 }

/-- Fixture document `d_tidal_vow`. -/
def dTidalVow (now : Int) : DocumentRecord :=
  { id := "d_tidal_vow"
  , title := "Tidal Vow of the Covenant"
  , text := "Every tide erases and re-inscribes.\nThe Covenant teaches archivists to wade through silted truths, \nstraining myths through coral lattices until only resonance remains.\nTheir oath is etched on shells that sing when contradictions approach."
  , authorId := "a_cartographer"
  , timestamp := now - 1000 * 60 * 60 * 24 * 38
  , embedding := [0.48, 0.61, 0.71]
  , references := ["d_origin_sky"]
  , factionTag := "Tidal Covenant"
  , canonWeight := 0.69 }

/-- Fixture document `d_silted_reckoning`. -/
def dSiltedReckoning (now : Int) : DocumentRecord :=
  { id := "d_silted_reckoning"
  , title := "Silted Reckoning"
  , text := "An expedition below the ninth stacks discovered anoxic shelves.\nHere the Library stores myths deemed too contradictory to burn.\nThe Cartographer mapped them in whispers and promised to return with allies."
  , authorId := "a_cartographer"
  , timestamp := now - 1000 * 60 * 60 * 24 * 17
  , embedding := [0.5, 0.55, 0.74]
  , references := ["d_tidal_vow"]
  , factionTag := "Tidal Covenant"
  , canonWeight := 0.57 }

/-- Fixture document `d_ember_heresy`. -/
def dEmberHeresy (now : Int) : DocumentRecord :=
  { id := "d_ember_heresy"
  , title := "Treatise on Ember Heresy"
  , text := "To deny the flames is to deny revision.\nThe Reliquary tends to contradictions by setting them alight,\nreading the smoke to decide which memory survives the purge.\nSome say the smoke has begun to spell dissent."
  , authorId := "a_scribe_of_breath"
  , timestamp := now - 1000 * 60 * 60 * 24 * 11
  , embedding := [0.31, 0.46, 0.92]
  , references := ["d_origin_sky", "d_aurora_accord"]
  , factionTag := "Ember Reliquary"
  , canonWeight := 0.61 }

/-- The `primeDocuments` fixture collection (`src/main.ts` lines 105–161),
parameterised by the current time `now = Date.now()`. -/
def primeDocuments (now : Int) : List DocumentRecord :=
  [dOriginSky now, dAuroraAccord now, dTidalVow now, dSiltedReckoning now,
    dEmberHeresy now]

theorem charsLeads_iff (p h : List Char) :
    charsLeads p h = true ↔ ∃ t, h = p ++ t := by
  induction p generalizing h with
  | nil => simp [charsLeads]
  | cons a ps ih =>
    cases h with
    | nil => simp [charsLeads]
    | cons b hs =>
      simp only [charsLeads, Bool.and_eq_true, beq_iff_eq, ih, List.cons_append,
        List.cons.injEq]
      constructor
      · rintro ⟨rfl, t, rfl⟩
        exact ⟨t, rfl, rfl⟩
      · rintro ⟨t, rfl, rfl⟩
        exact ⟨rfl, t, rfl⟩

theorem charsIncludes_iff (pat hay : List Char) :
    charsIncludes pat hay = true ↔ ∃ pre post, hay = pre ++ pat ++ post := by
  induction hay with
  | nil =>
    simp only [charsIncludes, charsLeads_iff]
    constructor
    · rintro ⟨t, ht⟩
      rcases List.append_eq_nil.mp ht.symm with ⟨rfl, rfl⟩
      exact ⟨[], [], rfl⟩
    · rintro ⟨pre, post, h⟩
      rcases List.append_eq_nil.mp (List.append_eq_nil.mp h.symm).1.symm.symm with _
      rcases List.append_eq_nil.mp h.symm with ⟨h1, rfl⟩
      rcases List.append_eq_nil.mp h1 with ⟨rfl, rfl⟩
      exact ⟨[], rfl⟩
  | cons c rest ih =>
    simp only [charsIncludes, Bool.or_eq_true, charsLeads_iff, ih]
    constructor
    · rintro (⟨t, ht⟩ | ⟨pre, post, hp⟩)
      · exact ⟨[], t, by simpa using ht⟩
      · exact ⟨c :: pre, post, by simp [hp]⟩
    · rintro ⟨pre, post, hp⟩
      cases pre with
      | nil => exact Or.inl ⟨post, by simpa using hp⟩
      | cons c' pre' =>
        rcases List.cons.injEq .. ▸ hp with ⟨rfl, htail⟩
        exact Or.inr ⟨pre', post, htail⟩

theorem stringIncludes_iff (hay pat : String) :
    stringIncludes hay pat = true ↔
      ∃ pre post, hay.data = pre ++ pat.data ++ post := by
  simpa [stringIncludes] using charsIncludes_iff pat.data hay.data

theorem docMatches_iff (agents : List Agent) (ff : String) (sco : Bool)
    (term : String) (doc : DocumentRecord) :
    docMatches agents ff sco term doc = true ↔
      ((ff ≠ "all" → doc.factionTag = ff) ∧
        (sco = true → (0.7 : Rat) ≤ doc.canonWeight) ∧
        (term ≠ "" →
          ∃ pre post, (searchHaystack agents doc).data =
            pre ++ term.data ++ post)) := by
  simp only [docMatches]
  split_ifs with h1 h2 h3
  · simp only [Bool.and_eq_true, bne_iff_ne, ne_eq] at h1
    simp only [false_iff, not_and]
    intro hfac
    exact absurd (hfac h1.1) h1.2
  · simp only [Bool.and_eq_true, decide_eq_true_iff] at h2
    simp only [false_iff, not_and]
    intro _ hcanon
    exact absurd (hcanon h2.1) (not_le.mpr h2.2)
  · simp only [Bool.and_eq_true, bne_iff_ne, ne_eq, not_and, not_not,
      decide_eq_true_iff, not_lt] at h1 h2
    have hterm : term = "" := (String.isEmpty_iff term).mp h3
    simp only [true_iff, hterm, ne_eq, not_true_eq_false, false_implies,
      and_true]
    exact ⟨h1, h2⟩
  · simp only [Bool.and_eq_true, bne_iff_ne, ne_eq, not_and, not_not,
      decide_eq_true_iff, not_lt] at h1 h2
    have hterm : term ≠ "" := fun h => h3 ((String.isEmpty_iff term).mpr h)
    rw [stringIncludes_iff]
    constructor
    · intro h
      exact ⟨h1, h2, fun _ => h⟩
    · rintro ⟨-, -, h⟩
      exact h hterm

/-- C1: a document appears in the output of `filteredDocuments` iff it is in
the input collection and satisfies the three AND-ed conditions: faction
filter (exact, case-sensitive, unless the filter is `"all"`), canon
threshold `canonWeight ≥ 0.7` (when `showCanonOnly`), and — when the
trimmed lower-cased search term is non-empty — a substring match against
the lower-cased haystack `title ++ " " ++ text ++ " " ++ authorName` (the
author's name resolving to `""` when `authorId` matches no agent). -/
theorem filteredDocuments_mem_iff (st : LibraryViewState) (d : DocumentRecord) :
    d ∈ filteredDocuments st ↔
      d ∈ st.documents ∧
        (st.factionFilter ≠ "all" → d.factionTag = st.factionFilter) ∧
        (st.showCanonOnly = true → (0.7 : Rat) ≤ d.canonWeight) ∧
        (strToLower (strTrim st.searchTerm) ≠ "" →
          ∃ pre post, (searchHaystack st.agents d).data =
            pre ++ (strToLower (strTrim st.searchTerm)).data ++ post) := by
  unfold filteredDocuments
  rw [List.mem_mergeSort, List.mem_filter, docMatches_iff]

/-- Closed instance of `filteredDocuments_mem_iff`: with a singleton
collection and no active filters, the document is visible. -/
theorem filteredDocuments_mem_iff_witness :
    dOriginSky 0 ∈ filteredDocuments
      ⟨[dOriginSky 0], primeAgents, none, "", "all", false⟩ :=
  (filteredDocuments_mem_iff
      ⟨[dOriginSky 0], primeAgents, none, "", "all", false⟩ (dOriginSky 0)).mpr
    ⟨List.mem_singleton.mpr rfl,
      fun h => absurd (by decide) h,
      fun h => absurd h (by decide),
      fun h => absurd (by decide) h⟩

/-- C2: the output of `filteredDocuments` is ordered by descending
timestamp — along the returned sequence the timestamps are non-increasing. -/
theorem filteredDocuments_sorted (st : LibraryViewState) :
    (filteredDocuments st).Pairwise
      (fun a b => b.timestamp ≤ a.timestamp) := by
  unfold filteredDocuments
  have htrans : ∀ a b c : DocumentRecord,
      decide (b.timestamp ≤ a.timestamp) = true →
      decide (c.timestamp ≤ b.timestamp) = true →
      decide (c.timestamp ≤ a.timestamp) = true := by
    intro a b c hab hbc
    simp only [decide_eq_true_iff] at *
    omega
  have htotal : ∀ a b : DocumentRecord,
      (decide (b.timestamp ≤ a.timestamp) ||
        decide (a.timestamp ≤ b.timestamp)) = true := by
    intro a b
    simp only [Bool.or_eq_true, decide_eq_true_iff]
    omega
  have h :=
    @List.sorted_mergeSort DocumentRecord
      (fun a b : DocumentRecord => decide (b.timestamp ≤ a.timestamp))
      htrans htotal
      (st.documents.filter
        (docMatches st.agents st.factionFilter st.showCanonOnly
          (strToLower (strTrim st.searchTerm))))
  exact h.imp (fun hab => by simpa using hab)

/-- The view state of the canon-focus scenario: the five fixture documents,
the three fixture agents, `showCanonOnly = true`, `factionFilter = "all"`,
empty search term. -/
def canonFocusState (now : Int) : LibraryViewState :=
  { documents := primeDocuments now
  , agents := primeAgents
  , activeDocumentId := some "d_origin_sky"
  , searchTerm := ""
  , factionFilter := "all"
  , showCanonOnly := true }

/-- Helper: with the fixtures, canon-only filtering, the `"all"` faction
filter and an empty search term — any active id — the engine keeps exactly
`d_origin_sky` (weight 0.92) and `d_aurora_accord` (weight 0.81) and sorts
`d_aurora_accord` (61 days old) before `d_origin_sky` (92 days old). -/
theorem filteredDocuments_canonFocusAux (now : Int) (active : Option String) :
    filteredDocuments
        ⟨primeDocuments now, primeAgents, active, "", "all", true⟩ =
      [dAuroraAccord now, dOriginSky now] := by
  have hfilter :
      (primeDocuments now).filter
        (docMatches primeAgents "all" true (strToLower (strTrim ""))) =
        [dOriginSky now, dAuroraAccord now] := by
    have hterm : strToLower (strTrim "") = "" := rfl
    rw [hterm]
    simp only [primeDocuments, List.filter_cons, List.filter_nil]
    have hempty : ("".isEmpty) = true := rfl
    norm_num [docMatches, dOriginSky, dAuroraAccord, dTidalVow,
      dSiltedReckoning, dEmberHeresy, hempty]
  unfold filteredDocuments
  simp only []
  rw [hfilter, mergeSort_pair]
  have hcmp :
      decide ((dAuroraAccord now).timestamp ≤ (dOriginSky now).timestamp)
        = false := by
    simp only [dAuroraAccord, dOriginSky, decide_eq_false_iff_not, not_le]
    omega
  simp only [hcmp]
  simp

/-- Helper: the canon-focus scenario output, in descending-timestamp order. -/
theorem filteredDocuments_canonFocus (now : Int) :
    filteredDocuments (canonFocusState now) =
      [dAuroraAccord now, dOriginSky now] :=
  filteredDocuments_canonFocusAux now (some "d_origin_sky")

/-- C3 counterexample: at `now = 0` the canon-focus output is not the
sequence `[d_origin_sky, d_aurora_accord]` stated by the claim (that order
is ascending by timestamp, not descending). -/
theorem canonFocus_claim_counterexample :
    filteredDocuments (canonFocusState 0) ≠ [dOriginSky 0, dAuroraAccord 0] := by
  rw [filteredDocuments_canonFocus 0]
  intro h
  have hids : (dAuroraAccord 0).id = (dOriginSky 0).id := by
    rw [List.cons.injEq] at h
    rw [h.1]
  simp [dAuroraAccord, dOriginSky] at hids

/-- C3 amended: in the canon-focus scenario the output contains only
documents with `canonWeight ≥ 0.7` and is exactly
`[d_aurora_accord, d_origin_sky]`, ordered by timestamp descending
(`d_aurora_accord`, 61 days old, is more recent than `d_origin_sky`,
92 days old). -/
theorem canonFocus_filtered (now : Int) :
    filteredDocuments (canonFocusState now) =
        [dAuroraAccord now, dOriginSky now] ∧
      ∀ d ∈ filteredDocuments (canonFocusState now),
        (0.7 : Rat) ≤ d.canonWeight := by
  refine ⟨filteredDocuments_canonFocus now, ?_⟩
  intro d hd
  rw [filteredDocuments_canonFocus now] at hd
  rcases List.mem_cons.mp hd with rfl | hd'
  · norm_num [dAuroraAccord]
  rcases List.mem_cons.mp hd' with rfl | hd''
  · norm_num [dOriginSky]
  exact absurd hd'' (List.not_mem_nil _)

/-- Closed instance of `canonFocus_filtered`: the head of the canon-focus
output at `now = 0` satisfies the canon threshold. -/
theorem canonFocus_filtered_witness :
    (0.7 : Rat) ≤ (dAuroraAccord 0).canonWeight :=
  (canonFocus_filtered 0).2 (dAuroraAccord 0)
    ((canonFocus_filtered 0).1 ▸ List.mem_cons_self _ _)

/-- Helper: the branch taken by `refreshArchiveList` when the visible set is
non-empty and the active id is absent from it. -/
theorem refreshArchiveList_reselect (st : LibraryViewState)
    (hne : filteredDocuments st ≠ [])
    (hnot : ∀ d ∈ filteredDocuments st, st.activeDocumentId ≠ some d.id) :
    refreshArchiveList st =
      { st with activeDocumentId :=
          ((filteredDocuments st).head?).map (fun d => d.id) } := by
  have hc1 : ((filteredDocuments st).length == 0) = false := by
    simp only [beq_eq_false_iff_ne, ne_eq, List.length_eq_zero]
    exact hne
  have hc2 :
      (filteredDocuments st).any
        (fun doc => some doc.id == st.activeDocumentId) = false := by
    rw [Bool.eq_false_iff]
    intro hany
    obtain ⟨d, hd, hbeq⟩ := List.any_eq_true.mp hany
    exact hnot d hd (beq_iff_eq.mp hbeq).symm
  have hmap :
      ∀ (o : Option DocumentRecord),
        (match o with | some doc => some doc.id | none => none) =
          o.map (fun d => d.id) := by
    intro o
    cases o <;> rfl
  simp only [refreshArchiveList]
  rw [hc1, hc2]
  simp only [Bool.false_eq_true, if_false, hmap]

/-- Helper: `refreshArchiveList` leaves the state untouched when the visible
set is empty or already contains the active document. -/
theorem refreshArchiveList_keep (st : LibraryViewState)
    (h : filteredDocuments st = [] ∨
      ∃ d ∈ filteredDocuments st, st.activeDocumentId = some d.id) :
    refreshArchiveList st = st := by
  simp only [refreshArchiveList]
  rcases h with h | ⟨d, hd, hid⟩
  · rw [h]
    rfl
  · have hc2 :
        (filteredDocuments st).any
          (fun doc => some doc.id == st.activeDocumentId) = true :=
      List.any_eq_true.mpr ⟨d, hd, beq_iff_eq.mpr hid.symm⟩
    rw [hc2]
    simp

/-- C4 amended: after `refreshArchiveList`, when the new visible sequence is
non-empty and the active id is not among its ids, the active id becomes the
id of the first visible document and every other field is unchanged; when
the active id is among them the state is unchanged; and when the visible
sequence is empty the function returns early, leaving the state — including
the stale `activeDocumentId` — unchanged (it is not reset to null). -/
theorem refreshArchiveList_active (st : LibraryViewState) :
    (filteredDocuments st = [] → refreshArchiveList st = st) ∧
      ((∃ d ∈ filteredDocuments st, st.activeDocumentId = some d.id) →
        refreshArchiveList st = st) ∧
      ((filteredDocuments st ≠ [] ∧
          ∀ d ∈ filteredDocuments st, st.activeDocumentId ≠ some d.id) →
        (refreshArchiveList st).activeDocumentId =
            ((filteredDocuments st).head?).map (fun d => d.id) ∧
          { refreshArchiveList st with activeDocumentId :=
              st.activeDocumentId } = st) := by
  refine ⟨fun h => refreshArchiveList_keep st (Or.inl h),
    fun h => refreshArchiveList_keep st (Or.inr h), fun ⟨hne, hnot⟩ => ?_⟩
  rw [refreshArchiveList_reselect st hne hnot]
  exact ⟨rfl, rfl⟩

/-- Closed instance of `refreshArchiveList_active`: with the canon-focus
fixtures and the (filtered-out) active id `d_ember_heresy`, the caller
reselects the first visible document, `d_aurora_accord`. -/
theorem refreshArchiveList_active_witness :
    (refreshArchiveList
        ⟨primeDocuments 0, primeAgents, some "d_ember_heresy", "", "all",
          true⟩).activeDocumentId = some "d_aurora_accord" := by
  have h :=
    (refreshArchiveList_active
        ⟨primeDocuments 0, primeAgents, some "d_ember_heresy", "", "all",
          true⟩).2.2
      ⟨by rw [filteredDocuments_canonFocusAux]; decide,
        by rw [filteredDocuments_canonFocusAux]; decide⟩
  rw [h.1, filteredDocuments_canonFocusAux]
  rfl

/-- C4 counterexample: with `factionFilter = "Nonexistent"` the visible set
is empty and the active id `d_origin_sky` is not in it, yet
`refreshArchiveList` leaves it `some "d_origin_sky"` instead of resetting it
to null as the claim states. -/
theorem refreshArchiveList_claim_counterexample :
    filteredDocuments
        ⟨primeDocuments 0, primeAgents, some "d_origin_sky", "",
          "Nonexistent", false⟩ = [] ∧
      (refreshArchiveList
          ⟨primeDocuments 0, primeAgents, some "d_origin_sky", "",
            "Nonexistent", false⟩).activeDocumentId ≠ none ∧
      (refreshArchiveList
          ⟨primeDocuments 0, primeAgents, some "d_origin_sky", "",
            "Nonexistent", false⟩).activeDocumentId = some "d_origin_sky" := by
  have hfilter :
      (primeDocuments 0).filter
        (docMatches primeAgents "Nonexistent" false
          (strToLower (strTrim ""))) = [] := by decide
  have hempty :
      filteredDocuments
          ⟨primeDocuments 0, primeAgents, some "d_origin_sky", "",
            "Nonexistent", false⟩ = [] := by
    unfold filteredDocuments
    simp only []
    rw [hfilter]
    exact List.mergeSort_nil
  have hkeep :=
    refreshArchiveList_keep
      ⟨primeDocuments 0, primeAgents, some "d_origin_sky", "",
        "Nonexistent", false⟩ (Or.inl hempty)
  rw [hkeep]
  exact ⟨hempty, fun h => Option.noConfusion h, rfl⟩

/-- Host model of a parsed JSON value (the result of `JSON.parse`). -/
inductive Json where
  | str (s : String)
  | num (q : Rat)
  | boolVal (b : Bool)
  | nullVal
  | arr (elems : List Json)
  | obj (fields : List (String × Json))

/-- A JS object as an association list of fields (first occurrence of a key
is authoritative); the element type `T extends Record<string, unknown>` of
`LocalStorageStore`. -/
abbrev JsonObj : Type := List (String × Json)

/-- JS object-spread contribution of an arbitrary value `x` in
`{ ...target, ...x }`: objects contribute their fields, strings and arrays
their indexed elements, primitives nothing. -/
def spreadFields : Json → JsonObj
  | .obj fields => fields
  | .str s => s.data.enum.map (fun p => (toString p.1, Json.str (String.singleton p.2)))
  | .arr es => es.enum.map (fun p => (toString p.1, p.2))
  | .num _ => []
  | .boolVal _ => []
  | .nullVal => []

/-- The JS object literal `{ ...d, ...p }`: keys of `d` in order (values
overridden by `p` where present), then the keys of `p` absent from `d`, in
order. -/
def mergeFields (d p : JsonObj) : JsonObj :=
  d.map (fun kv =>
      match p.lookup kv.1 with
      | some v => (kv.1, v)
      | none => kv) ++
    p.filter (fun kv => (d.lookup kv.1).isNone)

/-- Host model of the raw string stored under the settings key. -/
inductive StoredRaw where
  | corrupt
  | emptyStr
  | jsonVal (j : Json)

/-- Host model of the `localStorage` slot for the store's key:
the storage API may throw on access, the entry may be absent (`getItem`
yields `null`), or it holds a raw string — one `JSON.parse` rejects
(`corrupt`), the falsy empty string (`emptyStr`), or one parsing to a JSON
value (`jsonVal`). -/
inductive CellState where
  | unavailable
  | absent
  | stored (r : StoredRaw)

namespace LocalStorageStore

/-- Model of `localStorage.getItem(this.key)`: throws when storage is unavailable,
otherwise yields the entry (or `null`). -/
def getItem : CellState → Except Unit (Option StoredRaw)
  | .unavailable => .error ()
  | .absent => .ok none
  | .stored r => .ok (some r)

/-- Model of `JSON.parse(raw)`: throws on corrupt or empty content. -/
def parseRaw : StoredRaw → Except Unit Json
  | .corrupt => .error ()
  | .emptyStr => .error ()
  | .jsonVal j => .ok j

/-- JS falsiness of the raw string in `if (!raw)`: only `""` is falsy
among strings. -/
def rawFalsy : StoredRaw → Bool
  | .emptyStr => true
  | _ => false

/-- Model of `LocalStorageStore.read` (`src/main.ts` lines 49–60): the `try` block
reads and parses the entry and merges it over the default
(`{ ...this.defaultValue, ...JSON.parse(raw) }`), returning the default on
a falsy entry; the `catch` block logs a warning and returns the default.
Result: the returned value paired with whether a warning was logged. -/
def read (cell : CellState) (defaultValue : JsonObj) : JsonObj × Bool :=
  match (do
      let raw? ← getItem cell
      match raw? with
      | none => pure defaultValue
      | some raw =>
        if rawFalsy raw then pure defaultValue
        else do
          let j ← parseRaw raw
          pure (mergeFields defaultValue (spreadFields j)) :
      Except Unit JsonObj) with
  | .ok v => (v, false)
  | .error _ => (defaultValue, true)

/-- Subscriber callbacks are compared by reference in the source
(`fn !== subscriber`); each distinct function object is modelled as an id. -/
abbrev SubscriberId := Nat

/-- The observable outcome of a successful `write`: the new storage cell and
the synchronous notifications `(subscriber, value)` in invocation order. -/
structure WriteOutcome where
  newCell : CellState
  notified : List (SubscriberId × JsonObj)

/-- Model of `LocalStorageStore.write` (`src/main.ts` lines 62–65):
`localStorage.setItem(this.key, JSON.stringify(value))` — which may throw
(`storageFails`), propagating to the caller — followed by
`this.subscribers.forEach((subscriber) => subscriber(value))`. On success
the slot holds a string parsing back to `value`. -/
def write (storageFails : Bool) (cell : CellState)
    (subscribers : List SubscriberId) (value : JsonObj) :
    Except Unit WriteOutcome :=
  match (if storageFails then Except.error ()
      else Except.ok (CellState.stored (StoredRaw.jsonVal (Json.obj value))) :
      Except Unit CellState) with
  | .error e => .error e
  | .ok newCell => .ok ⟨newCell, subscribers.map (fun s => (s, value))⟩

/-- The storage slot after a `write` call: on a `setItem` failure the
exception aborts `write` before the slot is replaced, so it is unchanged. -/
def storageAfterWrite (storageFails : Bool) (cell : CellState)
    (subscribers : List SubscriberId) (value : JsonObj) : CellState :=
  match write storageFails cell subscribers value with
  | .ok o => o.newCell
  | .error _ => cell

/-- Model of `LocalStorageStore.subscribe` (`src/main.ts` lines 67–72): push the
callback onto the subscriber list. -/
def subscribe (subscribers : List SubscriberId) (f : SubscriberId) :
    List SubscriberId :=
  subscribers ++ [f]

/-- The unsubscribe closure returned by `subscribe`:
`this.subscribers = this.subscribers.filter((fn) => fn !== subscriber)`. -/
def unsubscribe (subscribers : List SubscriberId) (f : SubscriberId) :
    List SubscriberId :=
  subscribers.filter (fun fn => fn != f)

end LocalStorageStore

/-- Helper: lookup in an association-list append. -/
theorem lookup_append (xs ys : JsonObj) (k : String) :
    List.lookup k (xs ++ ys) = (List.lookup k xs).or (List.lookup k ys) := by
  induction xs with
  | nil => simp [List.lookup]
  | cons a t ih =>
    obtain ⟨ka, va⟩ := a
    cases hk : (k == ka) <;> simp [List.lookup, hk, ih]

/-- Helper: lookup in the overridden-defaults part of `mergeFields`. -/
theorem lookup_map_override (d p : JsonObj) (k : String) :
    List.lookup k (d.map (fun kv =>
        match p.lookup kv.1 with
        | some v => (kv.1, v)
        | none => kv)) =
      match List.lookup k d with
      | some w => some ((List.lookup k p).getD w)
      | none => none := by
  induction d with
  | nil => rfl
  | cons a t ih =>
    obtain ⟨ka, va⟩ := a
    by_cases hk : k = ka
    · subst hk
      cases hp : List.lookup k p <;>
        simp [List.lookup, List.map_cons, hp]
    · have hbeq : (k == ka) = false := beq_eq_false_iff_ne.mpr hk
      cases hp : List.lookup ka p <;>
        simp [List.lookup, List.map_cons, hp, hbeq, ih]

/-- Helper: keys absent from the defaults survive the `mergeFields` filter. -/
theorem lookup_filter_of_none (d p : JsonObj) (k : String)
    (h : List.lookup k d = none) :
    List.lookup k (p.filter (fun kv => (d.lookup kv.1).isNone)) =
      List.lookup k p := by
  induction p with
  | nil => rfl
  | cons a t ih =>
    obtain ⟨ka, va⟩ := a
    by_cases hk : k = ka
    · subst hk
      have hd : (List.lookup k d).isNone = true := by rw [h]; rfl
      simp [List.filter_cons, hd, List.lookup]
    · have hbeq : (k == ka) = false := beq_eq_false_iff_ne.mpr hk
      by_cases hd : (List.lookup ka d).isNone = true
      · simp [List.filter_cons, hd, List.lookup, hbeq, ih]
      · simp only [List.filter_cons, hd, if_false, Bool.false_eq_true]
        rw [ih]
        simp [List.lookup, hbeq]

/-- Helper: lookup in `{ ...d, ...p }` prefers `p` and falls back to `d`. -/
theorem lookup_mergeFields (d p : JsonObj) (k : String) :
    List.lookup k (mergeFields d p) =
      (List.lookup k p).or (List.lookup k d) := by
  unfold mergeFields
  rw [lookup_append, lookup_map_override]
  cases hd : List.lookup k d with
  | none =>
    rw [lookup_filter_of_none d p k hd]
    cases hp : List.lookup k p <;> simp
  | some w =>
    cases hp : List.lookup k p <;> simp

/-- Helper: a key has a binding exactly when it is among the keys. -/
theorem lookup_isSome_iff (l : JsonObj) (k : String) :
    (List.lookup k l).isSome = true ↔ k ∈ l.map Prod.fst := by
  induction l with
  | nil => simp [List.lookup]
  | cons a t ih =>
    obtain ⟨ka, va⟩ := a
    by_cases hk : k = ka
    · subst hk
      simp [List.lookup]
    · have hbeq : (k == ka) = false := beq_eq_false_iff_ne.mpr hk
      simp [List.lookup, hbeq, ih, hk]

/-- C5: `read` never raises: an unavailable storage API, an absent entry,
and corrupt or empty content all yield the caller-supplied default (with a
warning logged exactly in the thrown cases), and content parsing to a JSON
value `j` yields — warning-free — the persisted fields merged over the
default: persisted keys override matching default keys, default keys fill
in the rest. -/
theorem read_resilient (d : JsonObj) (j : Json) (k : String) :
    LocalStorageStore.read CellState.unavailable d = (d, true) ∧
      LocalStorageStore.read CellState.absent d = (d, false) ∧
      LocalStorageStore.read (CellState.stored StoredRaw.corrupt) d =
        (d, true) ∧
      LocalStorageStore.read (CellState.stored StoredRaw.emptyStr) d =
        (d, false) ∧
      (LocalStorageStore.read (CellState.stored (StoredRaw.jsonVal j)) d).2 =
        false ∧
      List.lookup k
          (LocalStorageStore.read (CellState.stored (StoredRaw.jsonVal j))
            d).1 =
        (List.lookup k (spreadFields j)).or (List.lookup k d) := by
  refine ⟨rfl, rfl, rfl, rfl, rfl, ?_⟩
  exact lookup_mergeFields d (spreadFields j) k

/-- C6: `write(S)` followed by `read()` with default `D` returns `S` merged
over `D` (warning-free); and when `S` assigns a value to every key of `D`,
the returned object is field-for-field equal to `S`. -/
theorem write_read_roundTrip (cell : CellState)
    (subs : List LocalStorageStore.SubscriberId) (S D : JsonObj)
    (o : LocalStorageStore.WriteOutcome)
    (h : LocalStorageStore.write false cell subs S = Except.ok o) :
    LocalStorageStore.read o.newCell D = (mergeFields D S, false) ∧
      ((∀ k ∈ D.map Prod.fst, k ∈ S.map Prod.fst) →
        ∀ k, List.lookup k (LocalStorageStore.read o.newCell D).1 =
          List.lookup k S) := by
  have ho : o = ⟨CellState.stored (StoredRaw.jsonVal (Json.obj S)),
      subs.map (fun s => (s, S))⟩ :=
    (Except.ok.inj h).symm
  subst ho
  constructor
  · rfl
  · intro hkeys k
    have hlk :
        List.lookup k
            (LocalStorageStore.read
              (CellState.stored (StoredRaw.jsonVal (Json.obj S))) D).1 =
          (List.lookup k S).or (List.lookup k D) :=
      lookup_mergeFields D S k
    rw [hlk]
    cases hS : List.lookup k S with
    | some v => rfl
    | none =>
      cases hD : List.lookup k D with
      | none => rfl
      | some w =>
        have hkD : k ∈ D.map Prod.fst :=
          (lookup_isSome_iff D k).mp (by rw [hD]; rfl)
        have hkS : (List.lookup k S).isSome = true :=
          (lookup_isSome_iff S k).mpr (hkeys k hkD)
        rw [hS] at hkS
        exact absurd hkS (by simp)

/-- Closed instance of `write_read_roundTrip`: writing a full settings
object and reading it back over a default recovers the written value of
`modelSlug`. -/
theorem write_read_roundTrip_witness :
    List.lookup "modelSlug"
        (LocalStorageStore.read
          (CellState.stored (StoredRaw.jsonVal (Json.obj
            [("modelSlug", Json.str "anthropic/claude-3-sonnet"),
              ("apiKey", Json.str "k1")])))
          [("modelSlug", Json.str "openrouter/auto"),
            ("apiKey", Json.str "")]).1 =
      some (Json.str "anthropic/claude-3-sonnet") := by
  have h :=
    (write_read_roundTrip CellState.absent []
        [("modelSlug", Json.str "anthropic/claude-3-sonnet"),
          ("apiKey", Json.str "k1")]
        [("modelSlug", Json.str "openrouter/auto"),
          ("apiKey", Json.str "")]
        ⟨CellState.stored (StoredRaw.jsonVal (Json.obj
          [("modelSlug", Json.str "anthropic/claude-3-sonnet"),
            ("apiKey", Json.str "k1")])), []⟩ rfl).2
      (by simp) "modelSlug"
  rw [h]
  rfl

/-- C7: a successful `write(v)` replaces the persisted value wholesale with
`v` — the new cell is independent of the previous cell contents, not a
merge with them — and synchronously notifies exactly the currently
registered subscribers, once each, in registration order, each with `v`. -/
theorem write_notifies (cell cell' : CellState)
    (subs : List LocalStorageStore.SubscriberId) (v : JsonObj)
    (o : LocalStorageStore.WriteOutcome)
    (h : LocalStorageStore.write false cell subs v = Except.ok o) :
    o.newCell = CellState.stored (StoredRaw.jsonVal (Json.obj v)) ∧
      LocalStorageStore.write false cell' subs v =
        LocalStorageStore.write false cell subs v ∧
      o.notified.map Prod.fst = subs ∧
      (∀ q ∈ o.notified, q.2 = v) := by
  have ho : o = ⟨CellState.stored (StoredRaw.jsonVal (Json.obj v)),
      subs.map (fun s => (s, v))⟩ :=
    (Except.ok.inj h).symm
  subst ho
  refine ⟨rfl, rfl, ?_, ?_⟩
  · show List.map Prod.fst (List.map (fun s => (s, v)) subs) = subs
    rw [List.map_map]
    rw [show (Prod.fst ∘ fun s : LocalStorageStore.SubscriberId => (s, v)) =
      id from rfl]
    exact List.map_id subs
  · intro q hq
    obtain ⟨s, _, rfl⟩ := List.mem_map.mp hq
    rfl

/-- Closed instance of `write_notifies`: two registered subscribers are
both notified, in registration order. -/
theorem write_notifies_witness :
    (⟨CellState.stored (StoredRaw.jsonVal (Json.obj
          [("modelSlug", Json.str "m")])),
        [(0, [("modelSlug", Json.str "m")]),
          (1, [("modelSlug", Json.str "m")])]⟩ :
      LocalStorageStore.WriteOutcome).notified.map Prod.fst = [0, 1] :=
  (write_notifies CellState.absent CellState.unavailable [0, 1]
      [("modelSlug", Json.str "m")] _ rfl).2.2.1

/-- C8: `subscribe(f)` registers `f`, so a subsequent `write` notifies it;
the unsubscribe handle removes exactly that callback — membership in the
remaining list is membership in the old list minus `f`, and the
multiplicity of every other callback is untouched — is idempotent, and
after it runs a subsequent `write` never invokes `f`. -/
theorem subscribe_contract (subs : List LocalStorageStore.SubscriberId)
    (f g : LocalStorageStore.SubscriberId) (cell : CellState) (v : JsonObj)
    (o o' : LocalStorageStore.WriteOutcome)
    (h : LocalStorageStore.write false cell
      (LocalStorageStore.subscribe subs f) v = Except.ok o)
    (h' : LocalStorageStore.write false cell
      (LocalStorageStore.unsubscribe subs f) v = Except.ok o') :
    (f, v) ∈ o.notified ∧
      (g ∈ LocalStorageStore.unsubscribe subs f ↔ (g ∈ subs ∧ g ≠ f)) ∧
      (g ≠ f →
        (LocalStorageStore.unsubscribe subs f).count g = subs.count g) ∧
      LocalStorageStore.unsubscribe (LocalStorageStore.unsubscribe subs f) f =
        LocalStorageStore.unsubscribe subs f ∧
      (∀ q ∈ o'.notified, q.1 ≠ f) := by
  have ho : o = ⟨CellState.stored (StoredRaw.jsonVal (Json.obj v)),
      (LocalStorageStore.subscribe subs f).map (fun s => (s, v))⟩ :=
    (Except.ok.inj h).symm
  have ho' : o' = ⟨CellState.stored (StoredRaw.jsonVal (Json.obj v)),
      (LocalStorageStore.unsubscribe subs f).map (fun s => (s, v))⟩ :=
    (Except.ok.inj h').symm
  subst ho
  subst ho'
  refine ⟨?_, ?_, ?_, ?_, ?_⟩
  · exact List.mem_map.mpr
      ⟨f, by simp [LocalStorageStore.subscribe], rfl⟩
  · simp [LocalStorageStore.unsubscribe, List.mem_filter, bne_iff_ne]
  · intro hg
    simp only [LocalStorageStore.unsubscribe]
    exact List.count_filter (by simp [bne_iff_ne]; exact hg)
  · simp only [LocalStorageStore.unsubscribe, List.filter_filter]
    congr 1
    funext fn
    simp [Bool.and_self]
  · intro q hq
    obtain ⟨s, hs, rfl⟩ := List.mem_map.mp hq
    have := (List.mem_filter.mp hs).2
    simpa [bne_iff_ne] using this

/-- Closed instance of `subscribe_contract`: a freshly subscribed callback
is notified by the next write. -/
theorem subscribe_contract_witness :
    ((0 : Nat), ([("apiKey", Json.str "k")] : JsonObj)) ∈
      (⟨CellState.stored (StoredRaw.jsonVal (Json.obj
            [("apiKey", Json.str "k")])),
          [(0, [("apiKey", Json.str "k")])]⟩ :
        LocalStorageStore.WriteOutcome).notified :=
  (subscribe_contract [] 0 1 CellState.absent [("apiKey", Json.str "k")]
      _ _ rfl rfl).1

/-- C10: when the underlying `setItem` raises during `write`, the exception
propagates to the caller, the persisted value is left unchanged, and no
subscriber is invoked; notification happens only on a successful
replacement, and then covers exactly the registered subscribers. -/
theorem write_failure_propagates (cell : CellState)
    (subs : List LocalStorageStore.SubscriberId) (v : JsonObj) :
    LocalStorageStore.write true cell subs v = Except.error () ∧
      LocalStorageStore.storageAfterWrite true cell subs v = cell ∧
      (∀ (b : Bool) (o : LocalStorageStore.WriteOutcome),
        LocalStorageStore.write b cell subs v = Except.ok o →
          b = false ∧ o.notified = subs.map (fun s => (s, v))) := by
  refine ⟨rfl, rfl, ?_⟩
  intro b o hb
  cases b
  · exact ⟨rfl, by rw [← (Except.ok.inj hb)]⟩
  · exact absurd hb (by simp [LocalStorageStore.write])

/-- Closed instance of `write_failure_propagates`: a failing write returns
the error to its caller. -/
theorem write_failure_propagates_witness :
    LocalStorageStore.write true CellState.absent [0]
        [("apiKey", Json.str "k")] = Except.error () :=
  (write_failure_propagates CellState.absent [0]
      [("apiKey", Json.str "k")]).1

/-- A heap of JS arrays of documents, keyed by array identity. -/
abbrev DocArrayHeap := List (Nat × List DocumentRecord)

/-- An array id unused by the heap (strictly above every allocated id). -/
def freshId (heap : DocArrayHeap) : Nat :=
  (heap.map Prod.fst).foldr (fun a b => max a b) 0 + 1

/-- Heap-level model of the `filteredDocuments` getter, tracking JS array
identity: `this.state.documents.filter(...)` reads the input array and
allocates a new array for the kept elements; `.sort(...)` then permutes
that new array in place (JS `sort` mutates its receiver — here the
freshly allocated array, never the input); the getter returns the new
array's id. -/
def filteredDocumentsHeap (heap : DocArrayHeap) (docsId : Nat)
    (agents : List Agent) (searchTerm factionFilter : String)
    (showCanonOnly : Bool) : DocArrayHeap × Nat :=
  let docs := (heap.lookup docsId).getD []
  let term := strToLower (strTrim searchTerm)
  let filtered :=
    docs.filter (docMatches agents factionFilter showCanonOnly term)
  let newId := freshId heap
  let heapAlloc := heap ++ [(newId, filtered)]
  let sorted :=
    filtered.mergeSort (fun a b => decide (b.timestamp ≤ a.timestamp))
  let heapSorted :=
    heapAlloc.map (fun kv => if kv.1 == newId then (newId, sorted) else kv)
  (heapSorted, newId)

/-- Helper: every member of a Nat list is bounded by its max-fold. -/
theorem mem_le_foldr_max (l : List Nat) (k : Nat) (h : k ∈ l) :
    k ≤ l.foldr (fun a b => max a b) 0 := by
  induction l with
  | nil => cases h
  | cons a t ih =>
    rcases List.mem_cons.mp h with rfl | h'
    · exact Nat.le_max_left _ _
    · exact Nat.le_trans (ih h') (Nat.le_max_right _ _)

/-- Helper: the fresh id is genuinely unallocated. -/
theorem freshId_not_mem (heap : DocArrayHeap) :
    freshId heap ∉ heap.map Prod.fst := by
  intro h
  have := mem_le_foldr_max (heap.map Prod.fst) (freshId heap) h
  simp only [freshId] at this
  omega

/-- Helper: generic association-list lookup over an append. -/
theorem lookup_append_generic {α β : Type} [BEq α] (xs ys : List (α × β))
    (k : α) :
    List.lookup k (xs ++ ys) = (List.lookup k xs).or (List.lookup k ys) := by
  induction xs with
  | nil => simp [List.lookup]
  | cons a t ih =>
    obtain ⟨ka, va⟩ := a
    cases hk : (k == ka) <;> simp [List.lookup, hk, ih]

/-- Helper: in-place replacement of the array `n` leaves every other
array's binding untouched. -/
theorem lookup_map_update (l : DocArrayHeap) (n : Nat)
    (x : List DocumentRecord) (i : Nat) (hne : i ≠ n) :
    List.lookup i (l.map (fun kv => if kv.1 == n then (n, x) else kv)) =
      List.lookup i l := by
  induction l with
  | nil => rfl
  | cons a t ih =>
    obtain ⟨ka, va⟩ := a
    rw [List.map_cons]
    by_cases hk : ka = n
    · subst hk
      have hhead :
          (if ((ka, va).1 == ka) = true then (ka, x) else (ka, va)) =
            (ka, x) := by
        simp
      rw [hhead, List.lookup_cons, List.lookup_cons,
        beq_eq_false_iff_ne.mpr hne]
      exact ih
    · have hkn : (ka == n) = false := beq_eq_false_iff_ne.mpr hk
      have hhead :
          (if ((ka, va).1 == n) = true then (n, x) else (ka, va)) =
            (ka, va) := by
        simp [hkn]
      rw [hhead, List.lookup_cons, List.lookup_cons]
      cases hik : (i == ka)
      · exact ih
      · rfl

/-- Helper: in-place replacement of the array `n` rebinds `n` to the new
contents. -/
theorem lookup_map_update_self (l : DocArrayHeap) (n : Nat)
    (x : List DocumentRecord) (h : n ∈ l.map Prod.fst) :
    List.lookup n (l.map (fun kv => if kv.1 == n then (n, x) else kv)) =
      some x := by
  induction l with
  | nil => cases h
  | cons a t ih =>
    obtain ⟨ka, va⟩ := a
    rw [List.map_cons]
    by_cases hk : ka = n
    · subst hk
      have hhead :
          (if ((ka, va).1 == ka) = true then (ka, x) else (ka, va)) =
            (ka, x) := by
        simp
      rw [hhead]
      exact List.lookup_cons_self
    · have hkn : (ka == n) = false := beq_eq_false_iff_ne.mpr hk
      have hnk : (n == ka) = false :=
        beq_eq_false_iff_ne.mpr (fun hkn' => hk hkn'.symm)
      have hhead :
          (if ((ka, va).1 == n) = true then (n, x) else (ka, va)) =
            (ka, va) := by
        simp [hkn]
      have h' : n ∈ t.map Prod.fst := by
        rw [List.map_cons] at h
        rcases List.mem_cons.mp h with h'' | h''
        · exact absurd h''.symm hk
        · exact h''
      rw [hhead, List.lookup_cons, hnk]
      exact ih h'

/-- C9: at the heap level, `filteredDocuments` mutates none of its inputs —
every array allocated before the call, including the state's document
array, keeps exactly its binding — and returns a freshly allocated array,
distinct from the input document array (and from every other existing
array), whose contents are the pure `filteredDocuments` value. The agents,
the document records and the view-state fields are passed by value in the
model, and the output draws its records unchanged from the input list. -/
theorem filteredDocumentsHeap_frame (heap : DocArrayHeap) (docsId : Nat)
    (agents : List Agent) (searchTerm factionFilter : String)
    (showCanonOnly : Bool) :
    (∀ i, i ≠ (filteredDocumentsHeap heap docsId agents searchTerm
          factionFilter showCanonOnly).2 →
      List.lookup i (filteredDocumentsHeap heap docsId agents searchTerm
          factionFilter showCanonOnly).1 = List.lookup i heap) ∧
      (filteredDocumentsHeap heap docsId agents searchTerm factionFilter
          showCanonOnly).2 ∉ heap.map Prod.fst ∧
      List.lookup
          (filteredDocumentsHeap heap docsId agents searchTerm factionFilter
            showCanonOnly).2
          (filteredDocumentsHeap heap docsId agents searchTerm factionFilter
            showCanonOnly).1 =
        some (filteredDocuments
          ⟨(List.lookup docsId heap).getD [], agents, none, searchTerm,
            factionFilter, showCanonOnly⟩) := by
  have heq :
      filteredDocumentsHeap heap docsId agents searchTerm factionFilter
          showCanonOnly =
        ((heap ++ [(freshId heap,
            ((List.lookup docsId heap).getD []).filter
              (docMatches agents factionFilter showCanonOnly
                (strToLower (strTrim searchTerm))))]).map
          (fun kv => if kv.1 == freshId heap then
            (freshId heap,
              (((List.lookup docsId heap).getD []).filter
                (docMatches agents factionFilter showCanonOnly
                  (strToLower (strTrim searchTerm)))).mergeSort
                (fun a b => decide (b.timestamp ≤ a.timestamp)))
            else kv),
          freshId heap) := rfl
  simp only [heq]
  refine ⟨?_, freshId_not_mem heap, ?_⟩
  · intro i hi
    rw [lookup_map_update _ _ _ _ hi, lookup_append_generic]
    have hnone : List.lookup i [(freshId heap,
        ((List.lookup docsId heap).getD []).filter
          (docMatches agents factionFilter showCanonOnly
            (strToLower (strTrim searchTerm))))] = none := by
      rw [List.lookup_cons, beq_eq_false_iff_ne.mpr hi]
      rfl
    rw [hnone]
    cases List.lookup i heap <;> rfl
  · rw [lookup_map_update_self]
    · rfl
    · simp

/-- Closed instance of `filteredDocumentsHeap_frame`: with one allocated
array, the binding of an unrelated array id is untouched by the call. -/
theorem filteredDocumentsHeap_frame_witness :
    List.lookup 5
        (filteredDocumentsHeap [(1, [])] 1 [] "" "all" false).1 =
      List.lookup 5 ([(1, [])] : DocArrayHeap) :=
  (filteredDocumentsHeap_frame [(1, [])] 1 [] "" "all" false).1 5
    (by decide)
